import Mathlib

/-!
Shallow embedding of the hashy password-hashing policy layer
(src/index.js) and proofs about its codec, policy merging, rehash
advisor and async wrapper.

JavaScript values relevant to the claims are modelled as follows:
* strings are Lean `String`s;
* numbers appearing as bcrypt costs are `Int` (truthiness: 0 is falsy);
* an optional argument is `Option _`, with `none` for `undefined`;
* option objects are association lists `Obj` from keys to numbers,
  mirroring plain JS objects whose own enumerable keys are distinct;
* a throwing computation is `Except String _`, the `String` being the
  error message built by the source.
-/

namespace Hashy

/-- The error message thrown by `getAlgoId` and by the fallback
`getRounds` in src/index.js: `new Error('invalid hash: ' + hash)`. -/
def invalidHash (h : String) : String := "invalid hash: " ++ h

/-- The error message thrown by `hash` and `verify` for an unsupported
algorithm: `new Error('unsupported algorithm')`. -/
def unsupportedAlgorithm : String := "unsupported algorithm"

/-- Decimal value of a digit run, as JS `+matches[1]` computes it. -/
def digitsToNat (ds : List Char) : Nat :=
  ds.foldl (fun a c => 10 * a + (c.toNat - '0'.toNat)) 0

/-- Embedding of `getAlgoId` (src/index.js lines 130-139): match the
regex `^\$([^$]+)\$` against the hash string and return the captured
tag, or throw `invalid hash: ...` when the string does not start with
a dollar delimiter, a nonempty run of non-dollar characters and a
second dollar delimiter. -/
def getAlgoId (h : String) : Except String String :=
  match h.data with
  | '$' :: rest =>
    let tag := rest.takeWhile (fun c => c ≠ '$')
    let rest1 := rest.dropWhile (fun c => c ≠ '$')
    if tag.isEmpty then .error (invalidHash h)
    else
      match rest1 with
      | '$' :: _ => .ok (String.mk tag)
      | _ => .error (invalidHash h)
  | _ => .error (invalidHash h)

/-- Embedding of the fallback `getRounds` (src/index.js lines 41-51):
match `^\$[^$]+\$(\d+)\$` and return the decimal value of the digit
run, or throw `invalid hash: ...`. -/
def getRounds (h : String) : Except String Int :=
  match h.data with
  | '$' :: rest =>
    let tag := rest.takeWhile (fun c => c ≠ '$')
    let rest1 := rest.dropWhile (fun c => c ≠ '$')
    if tag.isEmpty then .error (invalidHash h)
    else
      match rest1 with
      | '$' :: rest2 =>
        let digits := rest2.takeWhile Char.isDigit
        let rest3 := rest2.dropWhile Char.isDigit
        if digits.isEmpty then .error (invalidHash h)
        else
          match rest3 with
          | '$' :: _ => .ok (digitsToNat digits : Int)
          | _ => .error (invalidHash h)
      | _ => .error (invalidHash h)
  | _ => .error (invalidHash h)

/-- Embedding of `IDENTS_TO_ALGOS` (src/index.js lines 110-128): the
map built from the table `bcrypt -> [2, 2a, 2x, 2y]`, sending each
identifier to its algorithm name; `none` for an absent key. -/
def IDENTS_TO_ALGOS (id : String) : Option String :=
  if id = "2" ∨ id = "2a" ∨ id = "2x" ∨ id = "2y" then some "bcrypt" else none

/-- Constant DEFAULT_ALGO (src/index.js line 148). -/
def DEFAULT_ALGO : String := "bcrypt"

/-- The JS defaulting idiom `algo || (algo = DEFAULT_ALGO)`: an omitted
argument (`none`) and the empty string are both falsy. -/
def defaultAlgo (algo : Option String) : String :=
  match algo with
  | none => DEFAULT_ALGO
  | some a => if a = "" then DEFAULT_ALGO else a

/-- A plain JS object with numeric values, as an association list over
its own enumerable keys (in insertion order, keys distinct). -/
abbrev Obj := List (String × Int)

/-- Property read `o[k]` on an object. -/
def objGet (o : Obj) (k : String) : Option Int :=
  (o.find? (fun kv => kv.1 = k)).map (fun kv => kv.2)

/-- Property write `o[k] = v` on an object: an existing key keeps its
position and gets the new value, a new key is appended at the end
(JS own-property insertion order). -/
def setKey : Obj → String → Int → Obj
  | [], k, v => [(k, v)]
  | kv :: t, k, v => if kv.1 = k then (k, v) :: t else kv :: setKey t k v

/-- Embedding of `assign` (src/index.js lines 61-74): copy the own
keys of each source, in order, onto the target; a source that is
`undefined` contributes nothing (`for in` over undefined is empty).
Later sources overwrite earlier ones. -/
def assign (target : Obj) (sources : List (Option Obj)) : Obj :=
  sources.foldl
    (fun t src =>
      match src with
      | none => t
      | some s => s.foldl (fun t kv => setKey t kv.1 kv.2) t)
    target

/-- The decoded view of a hash string returned by `getInfo`
(src/index.js lines 186-205): `algo`, `id`, and the options object,
which is `some cost` for the bcrypt branch and `none` for the empty
object of the unknown branch. -/
structure HashInfo where
  algo : String
  id : String
  cost : Option Int
deriving DecidableEq, Repr

/-- Embedding of `getInfo` (src/index.js lines 186-205): decode the
tag with `getAlgoId`, look it up in `IDENTS_TO_ALGOS`; for bcrypt
additionally extract the cost with `getRounds` (which may throw); any
other tag yields the permissive unknown record. -/
def getInfo (h : String) : Except String HashInfo := do
  let algoId ← getAlgoId h
  let algo := IDENTS_TO_ALGOS algoId
  if algo = some "bcrypt" then
    let c ← getRounds h
    pure ⟨"bcrypt", algoId, some c⟩
  else
    pure ⟨"unknown", "unknown", none⟩

/-- JS `<` between a possibly-undefined number and a number:
`undefined < n` is false (NaN comparison). -/
def jsLt (a : Option Int) (b : Int) : Bool :=
  match a with
  | none => false
  | some a => a < b

/-- The expression `options && options.cost || globalOptions.bcrypt.cost`
from `needsRehash` (src/index.js line 232): the caller cost is used
only when `options` is supplied and `options.cost` is truthy
(present and nonzero); otherwise the global bcrypt default cost. -/
def requiredCost (options : Option Obj) (globalCost : Int) : Int :=
  match options with
  | none => globalCost
  | some o =>
    match objGet o "cost" with
    | none => globalCost
    | some c => if c = 0 then globalCost else c

/-- Embedding of `needsRehash` (src/index.js lines 220-237). The
mutable `globalOptions.bcrypt.cost` read at line 232 is passed
explicitly as `globalCost`. -/
def needsRehash (h : String) (algo : Option String) (options : Option Obj)
    (globalCost : Int) : Except String Bool := do
  let info ← getInfo h
  let algo := defaultAlgo algo
  if info.algo ≠ algo then
    pure true
  else if algo = "bcrypt" then
    pure (info.id ≠ "2y" || jsLt info.cost (requiredCost options globalCost))
  else
    pure false

/-- Two-decimal-digit rendering of a cost, as embedded in a bcrypt
hash string. -/
def twoDigit (n : Nat) : String :=
  if n < 10 then "0" ++ toString n else toString n

/-- Modelled from the spec: the external bcrypt primitive
`primitiveHash(password, params) -> hashString` is not part of
src/index.js (it is the required bcrypt/twin-bcrypt module). Per the
spec, a produced hash has the format dollar, tag, dollar, two-digit
cost, dollar, salt plus digest payload, with the canonical latest tag
"2y"; costs outside the bcrypt range 4..31 are rejected by the
primitive (a PrimitiveFailure). The salt and digest depend on the
password and fresh randomness; the payload is abstracted as the
`saltDigest` argument, drawn from the bcrypt alphabet (no dollar, no
leading digit matters only to the payload itself, not to decoding). -/
def primitiveHash (_password : String) (cost : Option Int) (saltDigest : String) :
    Except String String :=
  match cost with
  | none => .error "PrimitiveFailure"
  | some c =>
    if 4 ≤ c ∧ c ≤ 31 then
      .ok ("$2y$" ++ twoDigit c.toNat ++ "$" ++ saltDigest)
    else
      .error "PrimitiveFailure"

/-- The effective options object built by `hash` (src/index.js line
170): assign of a fresh empty target, the caller options and then the
global bcrypt defaults, later sources winning. -/
def hashEffectiveOptions (options : Option Obj) (globalBcrypt : Obj) : Obj :=
  assign [] [options, some globalBcrypt]

/-- Embedding of `hash` (src/index.js lines 166-175): default the
algorithm, and for bcrypt call the primitive with the merged cost;
any other (truthy) algorithm name throws `unsupported algorithm`.
The mutable `globalOptions.bcrypt` object is passed explicitly, and
the primitive's nondeterministic payload as `saltDigest`. -/
def hash (password : String) (algo : Option String) (options : Option Obj)
    (globalBcrypt : Obj) (saltDigest : String) : Except String String :=
  let algo := defaultAlgo algo
  if algo = "bcrypt" then
    let merged := hashEffectiveOptions options globalBcrypt
    primitiveHash password (objGet merged "cost") saltDigest
  else
    .error unsupportedAlgorithm

/-- Embedding of `verify` (src/index.js lines 249-257): decode the
hash, and for bcrypt dispatch to the primitive comparison (abstracted
as the oracle `compare`); otherwise throw `unsupported algorithm`. -/
def verify (password h : String) (compare : String → String → Bool) :
    Except String Bool := do
  let info ← getInfo h
  if info.algo = "bcrypt" then
    pure (compare password h)
  else
    .error unsupportedAlgorithm

/-- The initial global bcrypt defaults (src/index.js lines 150-152):
globalOptions.bcrypt is the object with cost 10. -/
def initialGlobalBcrypt : Obj := [("cost", 10)]

/-! ### Heap model for the mutation claims

To talk about what `hash` does and does not mutate, the objects it
touches are also modelled behind references into an explicit heap:
`assign` is replayed as the source loop writing property by property
into its target reference. -/

/-- A reference to a JS object. -/
abbrev Ref := Nat

/-- A heap: the association of live references to their objects. -/
abbrev Heap := List (Ref × Obj)

/-- Dereference a heap reference. -/
def heapGet (h : Heap) (r : Ref) : Option Obj :=
  (h.find? (fun p => p.1 = r)).map (fun p => p.2)

/-- Replace the object held at a (live) reference. -/
def heapSet : Heap → Ref → Obj → Heap
  | [], _, _ => []
  | p :: t, r, o => if p.1 = r then (r, o) :: t else p :: heapSet t r o

/-- A reference not yet live in the heap. -/
def freshRef (h : Heap) : Ref :=
  (h.map Prod.fst).foldr max 0 + 1

/-- Allocate a new object (the object literal in the source). -/
def heapAlloc (h : Heap) (o : Obj) : Heap × Ref :=
  let r := freshRef h
  ((r, o) :: h, r)

/-- Embedding of `assign` (src/index.js lines 61-74) at the heap
level: for each source reference, in order, copy each of its own
properties onto the target by an in-place property write. An
`undefined` source or a dangling reference contributes nothing. -/
def assignRefs (h : Heap) (target : Ref) (sources : List (Option Ref)) : Heap :=
  sources.foldl
    (fun h src =>
      match src with
      | none => h
      | some r =>
        match heapGet h r with
        | none => h
        | some fields =>
          fields.foldl
            (fun h kv =>
              match heapGet h target with
              | some t => heapSet h target (setKey t kv.1 kv.2)
              | none => h)
            h)
    h

/-- The heap effect of line 170 of src/index.js,
assign of a fresh empty object, the caller options reference and the
global bcrypt defaults reference: allocate the fresh target, then run
the assign loop into it. Returns the heap after the call and the
target reference. -/
def hashMergeAlloc (h : Heap) (optionsRef : Option Ref) (globalBcryptRef : Ref) :
    Heap × Ref :=
  let h1 := (heapAlloc h []).1
  let t := (heapAlloc h []).2
  (assignRefs h1 t [optionsRef, some globalBcryptRef], t)

/-! ### The async wrapper -/

/-- A JS argument as the wrapper sees it: either a plain value or a
function (a callback). `isFunction` distinguishes exactly these. -/
inductive JsArg (α κ : Type) where
  | val : α → JsArg α κ
  | func : κ → JsArg α κ

/-- Embedding of `isFunction` (src/index.js lines 78-84): true exactly
on function values. -/
def isFunction {α κ : Type} : JsArg α κ → Bool
  | .func _ => true
  | .val _ => false

/-- Lines 96-99 of src/index.js: when the argument list is nonempty
and its last entry is a function, pop it as the callback. -/
def splitCallback {α κ : Type} (args : List (JsArg α κ)) :
    List (JsArg α κ) × Option κ :=
  match args.getLast? with
  | some (.func k) => (args.dropLast, some k)
  | _ => (args, none)

/-- The observable outcome of calling a JS function: it either throws
synchronously, or returns — and the returned value, once adopted by a
promise, eventually settles to the `Except` given (so a returned
rejected promise carries its error here). -/
inductive JsOutcome (ε β : Type) where
  | throws : ε → JsOutcome ε β
  | returns : Except ε β → JsOutcome ε β

/-- Line 101-103 of src/index.js: the promise executor
resolve(fn.apply(this, args)). If the call throws, the executor
throws, and the Promise constructor turns that into a rejection; if
it returns, resolve adopts the returned value. The result is the
settlement of the wrapper promise. -/
def newPromise {ε β : Type} : JsOutcome ε β → Except ε β
  | .throws e => .error e
  | .returns r => r

/-- What a call to the wrapper delivers: `returned` is the promise
(with its settlement) handed back to the caller, or `none` when the
call returns undefined; `callbackCall` is the settlement delivered to
the popped callback, when one was supplied. -/
structure WrapperResult (ε β : Type) where
  returned : Option (Except ε β)
  callbackCall : Option (Except ε β)

/-- Modelled from the spec: asCallback comes from the external
promise-toolbox module, not from src/index.js. Per the spec, each
wrapped operation is available in a blocking-callback-completion form
and a deferred-result form, and every failure is surfaced through the
callback error slot or the rejected deferred result: with a callback
the settlement is delivered to it (and no promise is handed back),
without one the promise itself is handed back. -/
def asCallback {ε β κ : Type} (p : Except ε β) (cb : Option κ) : WrapperResult ε β :=
  match cb with
  | some _ => ⟨none, some p⟩
  | none => ⟨some p, none⟩

/-- Embedding of `makeAsyncWrapper` (src/index.js lines 89-106): pop a
trailing callback, run the wrapped function inside the promise
executor, and hand the settlement to asCallback. -/
def makeAsyncWrapper {α κ ε β : Type} (fn : List (JsArg α κ) → JsOutcome ε β)
    (args : List (JsArg α κ)) : WrapperResult ε β :=
  let s := splitCallback args
  asCallback (newPromise (fn s.1)) s.2


/-! ### Lemmas about object reads, writes and the assign merge -/

theorem objGet_cons (kv : String × Int) (t : Obj) (k : String) :
    objGet (kv :: t) k = if kv.1 = k then some kv.2 else objGet t k := by
  by_cases h : kv.1 = k <;> simp [objGet, List.find?, h]

theorem objGet_setKey_self (o : Obj) (k : String) (v : Int) :
    objGet (setKey o k v) k = some v := by
  induction o with
  | nil => simp [setKey, objGet]
  | cons kv t ih =>
    obtain ⟨k0, v0⟩ := kv
    by_cases hk : k0 = k
    · simp [setKey, hk, objGet_cons]
    · simp [setKey, hk, objGet_cons, ih]

theorem objGet_setKey_ne (o : Obj) (k k' : String) (v : Int) (hne : k' ≠ k) :
    objGet (setKey o k v) k' = objGet o k' := by
  induction o with
  | nil => simp [setKey, objGet, List.find?, Ne.symm hne]
  | cons kv t ih =>
    obtain ⟨k0, v0⟩ := kv
    by_cases hk : k0 = k
    · simp [setKey, hk, objGet_cons, hne, Ne.symm hne]
    · by_cases hk' : k0 = k'
      · subst hk'
        simp [setKey, hk, objGet_cons]
      · simp [setKey, hk, objGet_cons, hk', ih]

theorem objGet_foldl_setKey_not_mem (s : Obj) (t : Obj) (k : String)
    (hk : k ∉ s.map Prod.fst) :
    objGet (s.foldl (fun t kv => setKey t kv.1 kv.2) t) k = objGet t k := by
  induction s generalizing t with
  | nil => rfl
  | cons kv rest ih =>
    simp only [List.map_cons, List.mem_cons] at hk
    push_neg at hk
    simp only [List.foldl_cons]
    rw [ih _ hk.2, objGet_setKey_ne t kv.1 k kv.2 hk.1]

theorem objGet_foldl_setKey (s : Obj) (t : Obj) (k : String) (v : Int)
    (hnd : (s.map Prod.fst).Nodup) (hmem : (k, v) ∈ s) :
    objGet (s.foldl (fun t kv => setKey t kv.1 kv.2) t) k = some v := by
  induction s generalizing t with
  | nil => cases hmem
  | cons kv rest ih =>
    rw [List.map_cons, List.nodup_cons] at hnd
    simp only [List.foldl_cons]
    rcases List.mem_cons.1 hmem with heq | hrest
    · subst heq
      rw [objGet_foldl_setKey_not_mem _ _ _ hnd.1, objGet_setKey_self]
    · exact ih (setKey t kv.1 kv.2) hnd.2 hrest

theorem objGet_mem (o : Obj) (k : String) (v : Int) (h : objGet o k = some v) :
    (k, v) ∈ o := by
  induction o with
  | nil => simp [objGet] at h
  | cons kv t ih =>
    obtain ⟨k0, v0⟩ := kv
    rw [objGet_cons] at h
    by_cases hk : k0 = k
    · simp [hk] at h
      subst hk; subst h
      exact List.mem_cons_self _ _
    · simp [hk] at h
      exact List.mem_cons_of_mem _ (ih h)


/-! ### Lemmas about the decode pipeline -/

theorem except_pure_eq {ε α : Type} (a : α) : (pure a : Except ε α) = Except.ok a := rfl

theorem except_bind_ok {ε α β : Type} (a : α) (f : α → Except ε β) :
    (Except.ok a >>= f : Except ε β) = f a := rfl

theorem except_bind_error {ε α β : Type} (e : ε) (f : α → Except ε β) :
    ((Except.error e : Except ε α) >>= f : Except ε β) = Except.error e := rfl

/-- Case analysis of a successful decode: either the tag is a
registered bcrypt identifier and the record is the bcrypt one built
from `getRounds`, or the record is the permissive unknown one. -/
theorem getInfo_ok_cases (h : String) (info : HashInfo)
    (hd : getInfo h = Except.ok info) :
    (info.algo = "bcrypt" ∧ IDENTS_TO_ALGOS info.id = some "bcrypt" ∧
      getAlgoId h = Except.ok info.id ∧
      ∃ c, info.cost = some c ∧ getRounds h = Except.ok c) ∨
    info = ⟨"unknown", "unknown", none⟩ := by
  unfold getInfo at hd
  cases hga : getAlgoId h with
  | error e =>
    rw [hga, except_bind_error] at hd
    cases hd
  | ok algoId =>
    rw [hga, except_bind_ok] at hd
    by_cases hreg : IDENTS_TO_ALGOS algoId = some "bcrypt"
    · rw [if_pos hreg] at hd
      cases hgr : getRounds h with
      | error e =>
        rw [hgr] at hd
        simp only [Except.map_error, except_bind_error, except_pure_eq] at hd
        cases hd
      | ok c =>
        rw [hgr] at hd
        simp only [Except.map_ok, except_bind_ok, except_pure_eq, Except.ok.injEq] at hd
        left
        rw [← hd]
        exact ⟨rfl, hreg, rfl, c, rfl, rfl⟩
    · rw [if_neg hreg, except_pure_eq] at hd
      cases hd
      right
      rfl

/-- Unfolding of `needsRehash` after a successful decode. -/
theorem needsRehash_ok (h : String) (algo : Option String) (options : Option Obj)
    (g : Int) (info : HashInfo) (hd : getInfo h = Except.ok info) :
    needsRehash h algo options g =
      Except.ok (if info.algo ≠ defaultAlgo algo then true
        else if defaultAlgo algo = "bcrypt" then
          (info.id ≠ "2y" || jsLt info.cost (requiredCost options g))
        else false) := by
  unfold needsRehash
  rw [hd, except_bind_ok]
  simp only [except_pure_eq]
  split_ifs <;> rfl

/-- Scanning a run of characters satisfying p, stopped by a character
that does not: takeWhile keeps exactly the run and dropWhile leaves
the stop character and the tail. -/
theorem takeWhile_append_stop (p : Char → Bool) (ds rest : List Char) (stop : Char)
    (hds : ∀ c ∈ ds, p c) (hstop : p stop = false) :
    (ds ++ stop :: rest).takeWhile p = ds ∧
    (ds ++ stop :: rest).dropWhile p = stop :: rest := by
  induction ds with
  | nil => simp [List.takeWhile, List.dropWhile, hstop]
  | cons c t ih =>
    have hc : p c = true := hds c (List.mem_cons_self c t)
    have ht : ∀ c ∈ t, p c := fun c hm => hds c (List.mem_cons_of_mem _ hm)
    obtain ⟨h1, h2⟩ := ih ht
    simp [List.takeWhile_cons, List.dropWhile_cons, hc, h1, h2]

/-- Decoding a well-formed bcrypt-format string: tag "2y", then a
nonempty run of digits, then the payload; getInfo recovers the tag
and the decimal value of the digit run, whatever the payload is. -/
theorem getInfo_format (mid sd : String) (hne : mid.data ≠ [])
    (hdig : ∀ c ∈ mid.data, c.isDigit) :
    getInfo ("$2y$" ++ mid ++ "$" ++ sd) =
      Except.ok ⟨"bcrypt", "2y", some (digitsToNat mid.data : Int)⟩ := by
  have hdata : ("$2y$" ++ mid ++ "$" ++ sd).data
      = '$' :: (['2', 'y'] ++ '$' :: (mid.data ++ '$' :: sd.data)) := by
    simp [String.data_append]
  have htag := takeWhile_append_stop (fun c => c ≠ '$') ['2', 'y']
    (mid.data ++ '$' :: sd.data) '$' (by decide) (by decide)
  have hdigits := takeWhile_append_stop Char.isDigit mid.data sd.data '$' hdig (by decide)
  have hga : getAlgoId ("$2y$" ++ mid ++ "$" ++ sd) = Except.ok "2y" := by
    unfold getAlgoId
    rw [hdata]
    simp only [htag.1, htag.2]
    rfl
  have hgr : getRounds ("$2y$" ++ mid ++ "$" ++ sd)
      = Except.ok (digitsToNat mid.data : Int) := by
    unfold getRounds
    rw [hdata]
    simp only [htag.1, htag.2, List.append_assoc]
    simp only [hdigits.1, hdigits.2]
    have : mid.data.isEmpty = false := by
      cases hmid : mid.data with
      | nil => exact absurd hmid hne
      | cons a t => rfl
    simp [this]
  unfold getInfo
  rw [hga, except_bind_ok, if_pos (by rfl), hgr]
  rfl


theorem twoDigit_roundtrip (n : Int) (h4 : 4 ≤ n) (h31 : n ≤ 31) :
    (twoDigit n.toNat).data ≠ [] ∧ (∀ c ∈ (twoDigit n.toNat).data, c.isDigit) ∧
    (digitsToNat (twoDigit n.toNat).data : Int) = n := by
  interval_cases n <;> exact ⟨by decide, by decide, by decide⟩

theorem hash_bcrypt_eq (p : String) (opts : Option Obj) (gB : Obj) (sd : String) :
    hash p (some "bcrypt") opts gB sd =
      primitiveHash p (objGet (hashEffectiveOptions opts gB) "cost") sd := rfl

theorem objGet_merge_global (opts : Option Obj) (gB : Obj) (k : String) (v : Int)
    (hnd : (gB.map Prod.fst).Nodup) (hk : objGet gB k = some v) :
    objGet (hashEffectiveOptions opts gB) k = some v := by
  unfold hashEffectiveOptions assign
  simp only [List.foldl_cons, List.foldl_nil]
  exact objGet_foldl_setKey _ _ _ _ hnd (objGet_mem _ _ _ hk)



/-! ### Lemmas about the heap model -/

theorem heapGet_cons (p : Ref × Obj) (t : Heap) (r : Ref) :
    heapGet (p :: t) r = if p.1 = r then some p.2 else heapGet t r := by
  by_cases h : p.1 = r <;> simp [heapGet, List.find?, h]

theorem heapGet_heapSet_ne (h : Heap) (t r : Ref) (o : Obj) (hne : r ≠ t) :
    heapGet (heapSet h t o) r = heapGet h r := by
  induction h with
  | nil => rfl
  | cons p rest ih =>
    obtain ⟨r0, o0⟩ := p
    by_cases hr : r0 = t
    · subst hr
      simp [heapSet, heapGet_cons, Ne.symm hne]
    · simp [heapSet, hr, heapGet_cons, ih]

theorem heapGet_fold_write_ne (fields : Obj) (h : Heap) (t r : Ref) (hne : r ≠ t) :
    heapGet (fields.foldl
      (fun h kv =>
        match heapGet h t with
        | some tv => heapSet h t (setKey tv kv.1 kv.2)
        | none => h) h) r = heapGet h r := by
  induction fields generalizing h with
  | nil => rfl
  | cons kv rest ih =>
    simp only [List.foldl_cons]
    rw [ih]
    cases hT : heapGet h t with
    | none => simp only [hT]
    | some tv =>
      simp only [hT]
      exact heapGet_heapSet_ne h t r _ hne

theorem assignRefs_frame (srcs : List (Option Ref)) (h : Heap) (t r : Ref)
    (hne : r ≠ t) :
    heapGet (assignRefs h t srcs) r = heapGet h r := by
  unfold assignRefs
  induction srcs generalizing h with
  | nil => rfl
  | cons src rest ih =>
    simp only [List.foldl_cons]
    rw [ih]
    cases src with
    | none => rfl
    | some r2 =>
      cases hR : heapGet h r2 with
      | none => simp only [hR]
      | some fields =>
        simp only [hR]
        exact heapGet_fold_write_ne fields h t r hne

theorem le_foldr_max (l : List Nat) (x : Nat) (hx : x ∈ l) : x ≤ l.foldr max 0 := by
  induction l with
  | nil => cases hx
  | cons a t ih =>
    rcases List.mem_cons.1 hx with rfl | ht
    · exact le_max_left _ _
    · exact le_trans (ih ht) (le_max_right _ _)

theorem freshRef_not_mem (h : Heap) : freshRef h ∉ h.map Prod.fst := by
  intro hmem
  have hle := le_foldr_max (h.map Prod.fst) (freshRef h) hmem
  unfold freshRef at hle
  omega

/-! ### The claims -/

/-- Claim C1, counterexample: for the hash string with decoded tag
"2y" and decoded cost 8, caller options with cost 5 and global bcrypt
default cost 10, the decoded cost is strictly below max of the two
costs (10), so the claim demands true; the code compares against the
truthy caller cost 5 alone and returns false. -/
theorem needsRehash_max_counterexample :
    needsRehash "$2y$08$abc" (some "bcrypt") (some [("cost", 5)]) 10 = Except.ok false ∧
    getInfo "$2y$08$abc" = Except.ok ⟨"bcrypt", "2y", some 8⟩ ∧
    (8 : Int) < max 5 10 :=
  ⟨rfl, rfl, by norm_num⟩

/-- Claim C1 (amended): for every hash string that decodes
successfully, every options mapping and every global bcrypt default
cost, needsRehash with algorithm "bcrypt" returns true if and only if
the decoded tag is not "2y" or the decoded cost is strictly less than
the required cost, which is options.cost when options is supplied
with a truthy (present, nonzero) cost and the global bcrypt default
cost otherwise. -/
theorem needsRehash_bcrypt_iff (h : String) (options : Option Obj) (g : Int)
    (info : HashInfo) (hdec : getInfo h = Except.ok info) :
    needsRehash h (some "bcrypt") options g =
      Except.ok (info.id ≠ "2y" || jsLt info.cost (requiredCost options g)) := by
  rw [needsRehash_ok h (some "bcrypt") options g info hdec]
  rcases getInfo_ok_cases h info hdec with ⟨halgo, -, -, -⟩ | hunk
  · simp [defaultAlgo, DEFAULT_ALGO, halgo]
  · subst hunk
    simp [defaultAlgo, DEFAULT_ALGO]

/-- Witness for C1 (amended) at a concrete decodable hash. -/
theorem needsRehash_bcrypt_iff_witness :
    getInfo "$2y$09$xyz" = Except.ok ⟨"bcrypt", "2y", some 9⟩ ∧
    needsRehash "$2y$09$xyz" (some "bcrypt") (some [("cost", 5)]) 10 =
      Except.ok ((⟨"bcrypt", "2y", some 9⟩ : HashInfo).id ≠ "2y" ||
        jsLt (⟨"bcrypt", "2y", some 9⟩ : HashInfo).cost
          (requiredCost (some [("cost", 5)]) 10)) :=
  ⟨rfl, needsRehash_bcrypt_iff "$2y$09$xyz" (some [("cost", 5)]) 10
    ⟨"bcrypt", "2y", some 9⟩ rfl⟩

/-- Claim C2: the effective parameters of a bcrypt hash call merge
the caller options with the global bcrypt defaults, and for any key
the global defaults own, the default value wins and the caller value
is discarded; hash feeds exactly this merged object's cost to the
primitive. -/
theorem hash_policy_precedence (password : String) (options : Option Obj)
    (globalBcrypt : Obj) (saltDigest : String) (k : String) (v : Int)
    (hnd : (globalBcrypt.map Prod.fst).Nodup)
    (hk : objGet globalBcrypt k = some v) :
    objGet (hashEffectiveOptions options globalBcrypt) k = some v ∧
    hash password (some "bcrypt") options globalBcrypt saltDigest =
      primitiveHash password
        (objGet (hashEffectiveOptions options globalBcrypt) "cost") saltDigest :=
  ⟨objGet_merge_global options globalBcrypt k v hnd hk,
   hash_bcrypt_eq password options globalBcrypt saltDigest⟩

/-- Witness for C2: global cost 12 beats caller cost 8. -/
theorem hash_policy_precedence_witness :
    (([("cost", 12)] : Obj).map Prod.fst).Nodup ∧
    objGet [("cost", 12)] "cost" = some 12 ∧
    (objGet (hashEffectiveOptions (some [("cost", 8)]) [("cost", 12)]) "cost" = some 12 ∧
     hash "pw" (some "bcrypt") (some [("cost", 8)]) [("cost", 12)] "abc" =
       primitiveHash "pw"
         (objGet (hashEffectiveOptions (some [("cost", 8)]) [("cost", 12)]) "cost") "abc") :=
  ⟨by simp, rfl,
   hash_policy_precedence "pw" (some [("cost", 8)]) [("cost", 12)] "abc" "cost" 12
     (by simp) rfl⟩

/-- Claim C3, counterexample: with the initial global bcrypt default
cost 10 from the source, a hash produced with per-call cost 12
decodes to cost 10, not 12. -/
theorem format_roundtrip_counterexample :
    (hash "password" (some "bcrypt") (some [("cost", 12)]) initialGlobalBcrypt "abc").bind
        getInfo = Except.ok ⟨"bcrypt", "2y", some 10⟩ ∧
    (10 : Int) ≠ 12 :=
  ⟨rfl, by norm_num⟩

/-- Claim C3 (amended): hashing with any caller options round-trips
the effective cost, which is the global bcrypt default cost, not the
caller-supplied one. -/
theorem hash_roundtrips_effective_cost (password : String) (options : Option Obj)
    (g : Int) (saltDigest : String) (h4 : 4 ≤ g) (h31 : g ≤ 31) :
    hash password (some "bcrypt") options [("cost", g)] saltDigest =
      Except.ok ("$2y$" ++ twoDigit g.toNat ++ "$" ++ saltDigest) ∧
    getInfo ("$2y$" ++ twoDigit g.toNat ++ "$" ++ saltDigest) =
      Except.ok ⟨"bcrypt", "2y", some g⟩ := by
  obtain ⟨hne, hdig, hval⟩ := twoDigit_roundtrip g h4 h31
  have hc : objGet (hashEffectiveOptions options [("cost", g)]) "cost" = some g :=
    objGet_merge_global options [("cost", g)] "cost" g (by simp) (by simp [objGet])
  constructor
  · rw [hash_bcrypt_eq, hc]
    show (if 4 ≤ g ∧ g ≤ 31 then
        Except.ok ("$2y$" ++ twoDigit g.toNat ++ "$" ++ saltDigest)
      else Except.error "PrimitiveFailure") =
        Except.ok ("$2y$" ++ twoDigit g.toNat ++ "$" ++ saltDigest)
    rw [if_pos ⟨h4, h31⟩]
  · rw [getInfo_format _ _ hne hdig, hval]

/-- Witness for C3 (amended) at global default cost 12. -/
theorem hash_roundtrips_effective_cost_witness :
    (4 : Int) ≤ 12 ∧ (12 : Int) ≤ 31 ∧
    (hash "pw" (some "bcrypt") (some [("cost", 8)]) [("cost", 12)] "abc" =
        Except.ok ("$2y$" ++ twoDigit (12 : Int).toNat ++ "$" ++ "abc") ∧
      getInfo ("$2y$" ++ twoDigit (12 : Int).toNat ++ "$" ++ "abc") =
        Except.ok ⟨"bcrypt", "2y", some 12⟩) :=
  ⟨by norm_num, by norm_num,
   hash_roundtrips_effective_cost "pw" (some [("cost", 8)]) 12 "abc"
     (by norm_num) (by norm_num)⟩

/-- Claim C4: a structurally valid hash string whose tag is not a
registered bcrypt identifier makes needsRehash return true (algorithm
mismatch) without raising, and a string that fails to decode makes
needsRehash propagate the invalid-hash error for every algorithm
argument. -/
theorem needsRehash_unknown_true_and_invalid_raises (s t : String)
    (opts : Option Obj) (g : Int) :
    (getAlgoId s = Except.ok t → IDENTS_TO_ALGOS t = none →
      needsRehash s none opts g = Except.ok true) ∧
    (∀ e, getInfo s = Except.error e →
      ∀ a, needsRehash s a opts g = Except.error e) := by
  constructor
  · intro hga hreg
    have hinfo : getInfo s = Except.ok ⟨"unknown", "unknown", none⟩ := by
      unfold getInfo
      rw [hga, except_bind_ok, if_neg (by simp [hreg]), except_pure_eq]
    rw [needsRehash_ok s none opts g _ hinfo]
    simp [defaultAlgo, DEFAULT_ALGO]
  · intro e he a
    unfold needsRehash
    rw [he, except_bind_error]

/-- Witness for C4, at an unregistered tag and at an undecodable
string. -/
theorem needsRehash_unknown_true_and_invalid_raises_witness :
    (getAlgoId "$foo$bar" = Except.ok "foo" ∧ IDENTS_TO_ALGOS "foo" = none ∧
      needsRehash "$foo$bar" none none 10 = Except.ok true) ∧
    (getInfo "nope" = Except.error (invalidHash "nope") ∧
      needsRehash "nope" (some "bcrypt") none 10 =
        Except.error (invalidHash "nope")) :=
  ⟨⟨rfl, rfl,
    (needsRehash_unknown_true_and_invalid_raises "$foo$bar" "foo" none 10).1 rfl rfl⟩,
   ⟨rfl,
    (needsRehash_unknown_true_and_invalid_raises "nope" "x" none 10).2
      (invalidHash "nope") rfl (some "bcrypt")⟩⟩

/-- Claim C5, counterexample: the string with tag "2y" and nothing
after it matches the leading grammar (getAlgoId succeeds), yet
getInfo raises, because the registered tag forces cost extraction
and the cost field is missing. -/
theorem getInfo_grammar_counterexample :
    getAlgoId "$2y$" = Except.ok "2y" ∧
    getInfo "$2y$" = Except.error (invalidHash "$2y$") :=
  ⟨rfl, rfl⟩

/-- Claim C5 (amended): getInfo propagates the grammar failure of
getAlgoId; a grammar-valid string with an unregistered tag yields the
unknown record with empty options without raising; a grammar-valid
string with a registered bcrypt tag additionally extracts the cost
with getRounds, whose own invalid-hash failure (missing or malformed
digit field) also propagates. -/
theorem getInfo_error_characterization (s t : String) :
    (∀ e, getAlgoId s = Except.error e → getInfo s = Except.error e) ∧
    (getAlgoId s = Except.ok t → IDENTS_TO_ALGOS t = none →
      getInfo s = Except.ok ⟨"unknown", "unknown", none⟩) ∧
    (getAlgoId s = Except.ok t → IDENTS_TO_ALGOS t = some "bcrypt" →
      getInfo s = (getRounds s).map (fun c => ⟨"bcrypt", t, some c⟩)) := by
  refine ⟨?_, ?_, ?_⟩
  · intro e he
    unfold getInfo
    rw [he, except_bind_error]
  · intro hga hreg
    unfold getInfo
    rw [hga, except_bind_ok, if_neg (by simp [hreg]), except_pure_eq]
  · intro hga hreg
    unfold getInfo
    rw [hga, except_bind_ok, if_pos hreg]
    rfl

/-- Witness for C5 (amended) on all three branches. -/
theorem getInfo_error_characterization_witness :
    (getAlgoId "nope" = Except.error (invalidHash "nope") ∧
      getInfo "nope" = Except.error (invalidHash "nope")) ∧
    (getAlgoId "$foo$x" = Except.ok "foo" ∧ IDENTS_TO_ALGOS "foo" = none ∧
      getInfo "$foo$x" = Except.ok ⟨"unknown", "unknown", none⟩) ∧
    (getAlgoId "$2y$07$z" = Except.ok "2y" ∧
      IDENTS_TO_ALGOS "2y" = some "bcrypt" ∧
      getInfo "$2y$07$z" =
        (getRounds "$2y$07$z").map (fun c => ⟨"bcrypt", "2y", some c⟩)) :=
  ⟨⟨rfl, (getInfo_error_characterization "nope" "x").1 (invalidHash "nope") rfl⟩,
   ⟨rfl, rfl, (getInfo_error_characterization "$foo$x" "foo").2.1 rfl rfl⟩,
   ⟨rfl, rfl, (getInfo_error_characterization "$2y$07$z" "2y").2.2 rfl rfl⟩⟩

/-- Claim C6, counterexample: the empty string is an algorithm name
other than "bcrypt", yet hash does not fail with the unsupported
algorithm error: the falsy argument is defaulted and the call
succeeds. -/
theorem unsupported_algorithm_counterexample :
    ("" : String) ≠ "bcrypt" ∧
    hash "pw" (some "") none initialGlobalBcrypt "abc" = Except.ok "$2y$10$abc" :=
  ⟨by simp, rfl⟩

/-- Claim C6 (amended): for every truthy (nonempty) algorithm name
other than "bcrypt", hash fails with the unsupported algorithm error;
and for every hash string whose decoded algorithm is unknown, verify
fails with the unsupported algorithm error. -/
theorem unsupported_algorithm_errors (p a : String) (opts : Option Obj) (gB : Obj)
    (sd : String) (s : String) (cmp : String → String → Bool) (info : HashInfo)
    (ha0 : a ≠ "") (hab : a ≠ "bcrypt") (hdec : getInfo s = Except.ok info)
    (hunk : info.algo = "unknown") :
    hash p (some a) opts gB sd = Except.error unsupportedAlgorithm ∧
    verify p s cmp = Except.error unsupportedAlgorithm := by
  constructor
  · unfold hash
    simp [defaultAlgo, DEFAULT_ALGO, ha0, hab]
  · unfold verify
    rw [hdec, except_bind_ok]
    simp [hunk]

/-- Witness for C6 (amended) at algorithm "argon2" and an
unknown-tag hash. -/
theorem unsupported_algorithm_errors_witness :
    ("argon2" : String) ≠ "" ∧ ("argon2" : String) ≠ "bcrypt" ∧
    getInfo "$foo$x9" = Except.ok ⟨"unknown", "unknown", none⟩ ∧
    (hash "pw" (some "argon2") none [("cost", 10)] "abc" =
        Except.error unsupportedAlgorithm ∧
      verify "pw" "$foo$x9" (fun _ _ => false) =
        Except.error unsupportedAlgorithm) :=
  ⟨by simp, by simp, rfl,
   unsupported_algorithm_errors "pw" "argon2" none [("cost", 10)] "abc" "$foo$x9"
     (fun _ _ => false) ⟨"unknown", "unknown", none⟩ (by simp) (by simp) rfl rfl⟩

/-- Claim C7: when the wrapped function throws synchronously, the
wrapper still returns a settled result rather than rethrowing: the
error is delivered exactly as an asynchronous failure would be —
through the callback error slot when a callback was popped (the call
then returns undefined), and through the rejection of the returned
deferred result otherwise. -/
theorem asyncWrapper_uniform_error_delivery {α κ ε β : Type}
    (fn : List (JsArg α κ) → JsOutcome ε β) (args : List (JsArg α κ)) (e : ε)
    (hthrow : fn (splitCallback args).1 = JsOutcome.throws e) :
    makeAsyncWrapper fn args = asCallback (Except.error e) (splitCallback args).2 ∧
    ((splitCallback args).2 = none →
      makeAsyncWrapper fn args =
        ⟨some (Except.error e), none⟩) ∧
    (∀ k, (splitCallback args).2 = some k →
      makeAsyncWrapper fn args = ⟨none, some (Except.error e)⟩) := by
  have h1 : makeAsyncWrapper fn args
      = asCallback (Except.error e) (splitCallback args).2 := by
    show asCallback (newPromise (fn (splitCallback args).1)) (splitCallback args).2
      = asCallback (Except.error e) (splitCallback args).2
    rw [hthrow]
    rfl
  refine ⟨h1, ?_, ?_⟩
  · intro hn
    rw [h1, hn]
    rfl
  · intro k hk
    rw [h1, hk]
    rfl

/-- Witness for C7: a function that always throws, called with a
trailing callback. -/
theorem asyncWrapper_uniform_error_delivery_witness :
    (fun _ : List (JsArg Int Unit) => (JsOutcome.throws "boom" : JsOutcome String Int))
        (splitCallback [JsArg.val (0 : Int), JsArg.func ()]).1 =
      JsOutcome.throws "boom" ∧
    (makeAsyncWrapper
        (fun _ : List (JsArg Int Unit) => (JsOutcome.throws "boom" : JsOutcome String Int))
        [JsArg.val (0 : Int), JsArg.func ()] =
      asCallback (Except.error "boom")
        (splitCallback [JsArg.val (0 : Int), JsArg.func ()]).2 ∧
      ((splitCallback [JsArg.val (0 : Int), JsArg.func ()]).2 = none →
        makeAsyncWrapper
          (fun _ : List (JsArg Int Unit) => (JsOutcome.throws "boom" : JsOutcome String Int))
          [JsArg.val (0 : Int), JsArg.func ()] =
          ⟨some (Except.error "boom"), none⟩) ∧
      (∀ k, (splitCallback [JsArg.val (0 : Int), JsArg.func ()]).2 = some k →
        makeAsyncWrapper
          (fun _ : List (JsArg Int Unit) => (JsOutcome.throws "boom" : JsOutcome String Int))
          [JsArg.val (0 : Int), JsArg.func ()] =
          ⟨none, some (Except.error "boom")⟩)) :=
  ⟨rfl,
   asyncWrapper_uniform_error_delivery
     (fun _ => JsOutcome.throws "boom") [JsArg.val 0, JsArg.func ()] "boom" rfl⟩

/-- Claim C8: staleness is monotone in the required cost — if
needsRehash with no per-call options is false under global cost g,
and the global cost is raised strictly above the decoded cost, then
needsRehash with no per-call options is true under the new cost. -/
theorem staleness_monotone (h : String) (g gNew c : Int) (info : HashInfo)
    (hfresh : needsRehash h none none g = Except.ok false)
    (hdec : getInfo h = Except.ok info) (hcost : info.cost = some c)
    (hraise : c < gNew) :
    needsRehash h none none gNew = Except.ok true := by
  rw [needsRehash_ok h none none gNew info hdec]
  rw [needsRehash_ok h none none g info hdec] at hfresh
  by_cases halgo : info.algo = defaultAlgo none
  · rw [if_neg (by simp [halgo])]
    rw [if_pos (show defaultAlgo none = "bcrypt" from rfl)]
    simp [jsLt, hcost, requiredCost, hraise]
  · rw [if_pos halgo] at hfresh
    cases hfresh

/-- Witness for C8: fresh at global cost 10, stale once raised to 11. -/
theorem staleness_monotone_witness :
    needsRehash "$2y$10$ab" none none 10 = Except.ok false ∧
    getInfo "$2y$10$ab" = Except.ok ⟨"bcrypt", "2y", some 10⟩ ∧
    (10 : Int) < 11 ∧
    needsRehash "$2y$10$ab" none none 11 = Except.ok true :=
  ⟨rfl, rfl, by norm_num,
   staleness_monotone "$2y$10$ab" 10 11 10 ⟨"bcrypt", "2y", some 10⟩ rfl rfl rfl
     (by norm_num)⟩

/-- Claim C9: the effective-parameter construction of hash writes
only into a freshly allocated object: every object live before the
call — in particular the global policy object and the caller options
object — dereferences unchanged afterwards, and the merge target is
not any pre-existing reference. -/
theorem hash_does_not_mutate (h : Heap) (optionsRef : Option Ref)
    (globalBcryptRef : Ref) (r : Ref) (hr : r ∈ h.map Prod.fst) :
    heapGet (hashMergeAlloc h optionsRef globalBcryptRef).1 r = heapGet h r ∧
    (hashMergeAlloc h optionsRef globalBcryptRef).2 ∉ h.map Prod.fst := by
  have hfresh := freshRef_not_mem h
  have hne : r ≠ freshRef h := fun he => hfresh (he ▸ hr)
  constructor
  · show heapGet (assignRefs ((freshRef h, []) :: h) (freshRef h)
        [optionsRef, some globalBcryptRef]) r = heapGet h r
    rw [assignRefs_frame _ _ _ _ hne, heapGet_cons]
    simp [Ne.symm hne]
  · exact hfresh

/-- Witness for C9 on a two-object heap holding the global policy
object and a caller options object. -/
theorem hash_does_not_mutate_witness :
    (0 : Ref) ∈ ([(0, [("cost", 10)]), (1, [("cost", 8)])] : Heap).map Prod.fst ∧
    (heapGet (hashMergeAlloc [(0, [("cost", 10)]), (1, [("cost", 8)])] (some 1) 0).1 0 =
        heapGet [(0, [("cost", 10)]), (1, [("cost", 8)])] 0 ∧
      (hashMergeAlloc [(0, [("cost", 10)]), (1, [("cost", 8)])] (some 1) 0).2 ∉
        ([(0, [("cost", 10)]), (1, [("cost", 8)])] : Heap).map Prod.fst) :=
  ⟨by simp,
   hash_does_not_mutate [(0, [("cost", 10)]), (1, [("cost", 8)])] (some 1) 0 0 (by simp)⟩

/-- Claim C10: falsy arguments are treated as absent — a caller cost
of 0 makes needsRehash compare against the global default exactly as
if options were omitted, and the empty string as the algorithm makes
hash and needsRehash behave exactly as with the algorithm omitted. -/
theorem falsy_arguments_are_defaulted (h : String) (g : Int) (p : String)
    (opts : Option Obj) (gB : Obj) (sd : String) :
    requiredCost (some [("cost", 0)]) g = g ∧
    needsRehash h none (some [("cost", 0)]) g = needsRehash h none none g ∧
    hash p (some "") opts gB sd = hash p none opts gB sd ∧
    needsRehash h (some "") opts g = needsRehash h none opts g :=
  ⟨rfl, rfl, rfl, rfl⟩

end Hashy
